import Mathlib

/-!
Verification of the attendance bot's core aggregation logic.

The embedding models the pure computational core of the bot:

* `datetime` values are modelled as natural numbers counting microseconds
  since 0001-01-01 00:00:00 (Python's `datetime.min`, which is a Monday in
  the proleptic Gregorian calendar used by `datetime.date.toordinal`).
  Hence `t / usPerDay` is the day ordinal (0 = Monday 0001-01-01) and
  `t / usPerDay % 7` is Python's `weekday()`.
* `timedelta` arithmetic is integer arithmetic on microseconds.
* Python floats holding hour counts are modelled as rationals.
* Python's `sorted(..., key=...)` is a stable sort by key; it is modelled
  by a stable insertion sort (`sortRecs`), which computes the same function.
-/

namespace AttendanceBot

/-- record_type of an attendance record: the database only ever stores the
strings "clock_in" and "clock_out" (src/bot/models.py, src/bot/database.py). -/
inductive RecordType
  | clock_in
  | clock_out
deriving DecidableEq

/-- AttendanceRecord (src/bot/models.py), restricted to the fields the
aggregation core reads: `record_type`, `timestamp` (optional) and
`attendance_type_id` (optional).  The fields `id`, `user_id` and `notes`
are never read by the functions modelled here. -/
structure AttendanceRecord where
  record_type : RecordType
  timestamp : Option Nat
  attendance_type_id : Option Nat
deriving DecidableEq

/-- microseconds per day. -/
def usPerDay : Nat := 86400000000

/-- Python datetime field `weekday()`: 0 = Monday. -/
def weekday (t : Nat) : Nat := t / usPerDay % 7

/-- Python datetime field `hour`. -/
def hour (t : Nat) : Nat := t % usPerDay / 3600000000

/-- Python datetime field `minute`. -/
def minute (t : Nat) : Nat := t % usPerDay % 3600000000 / 60000000

/-- Python datetime field `second`. -/
def second (t : Nat) : Nat := t % usPerDay % 60000000 / 1000000

/-- Python datetime field `microsecond`. -/
def microsecond (t : Nat) : Nat := t % 1000000

/-- get_week_start_end (src/bot/utils.py lines 87-102).
`target` is the reference datetime, `weeks_offset` the whole-week shift.
The intermediate `week_start + timedelta(weeks=weeks_offset)` can fall
before `datetime.min`, in which case Python raises `OverflowError`;
this is modelled by returning `none`.  Otherwise
`replace(hour=0, minute=0, second=0, microsecond=0)` floors the shifted
instant to its day boundary, and the week end adds
`timedelta(days=6, hours=23, minutes=59, seconds=59)`. -/
def get_week_start_end (target : Nat) (weeks_offset : ℤ) : Option (Nat × Nat) :=
  let days_since_monday : Nat := target / usPerDay % 7
  let shifted : ℤ := (target : ℤ) - (days_since_monday : ℤ) * (usPerDay : ℤ)
      + weeks_offset * (7 * (usPerDay : ℤ))
  if 0 ≤ shifted then
    let week_start : Nat := shifted.toNat / usPerDay * usPerDay
    some (week_start, week_start + (6 * 86400 + 23 * 3600 + 59 * 60 + 59) * 1000000)
  else
    none

/-- calculate_work_hours (src/bot/utils.py lines 104-110): `None` arguments
yield 0.0, otherwise `(clock_out - clock_in).total_seconds() / 3600`.
Timestamps are microseconds, so `total_seconds` divides by 1000000. -/
def calculate_work_hours : Option Nat → Option Nat → ℚ
  | some ci, some co => ((co : ℚ) - (ci : ℚ)) / 1000000 / 3600
  | _, _ => 0

/-- sort key used by calculate_daily_work_hours:
`r.timestamp or datetime.min`, with `datetime.min = 0` in this encoding. -/
def sortKey (r : AttendanceRecord) : Nat := r.timestamp.getD 0

/-- stable insertion of a record into a list sorted by `sortKey`:
the record goes before the first element whose key is not smaller, which
matches the stability of Python's `sorted` when inserting from the right. -/
def insertR (r : AttendanceRecord) : List AttendanceRecord → List AttendanceRecord
  | [] => [r]
  | y :: ys => if sortKey y < sortKey r then y :: insertR r ys else r :: y :: ys

/-- stable sort by `sortKey`, modelling
`sorted(day_records, key=lambda r: r.timestamp or datetime.min)`. -/
def sortRecs : List AttendanceRecord → List AttendanceRecord
  | [] => []
  | x :: xs => insertR x (sortRecs xs)

/-- one step of the scan in calculate_daily_work_hours
(src/bot/utils.py lines 154-159): the state is the accumulated hours and
the open clock-in slot. -/
def dailyStep (acc : ℚ × Option Nat) (r : AttendanceRecord) : ℚ × Option Nat :=
  match r.record_type with
  | RecordType.clock_in => (acc.1, r.timestamp)
  | RecordType.clock_out =>
    match acc.2, r.timestamp with
    | some ci, some co => (acc.1 + calculate_work_hours (some ci) (some co), none)
    | _, _ => acc

/-- calculate_daily_work_hours (src/bot/utils.py lines 145-165): sort the
day's records by timestamp, scan them pairing clock-ins with clock-outs,
and report the total hours and whether a clock-in is left open. -/
def calculate_daily_work_hours (day_records : List AttendanceRecord) : ℚ × Bool :=
  let res := (sortRecs day_records).foldl dailyStep ((0 : ℚ), (none : Option Nat))
  (res.1, res.2.isSome)

/-- calendar date of a record, as a day ordinal:
`record.timestamp.date()` when the timestamp is present. -/
def record_date (r : AttendanceRecord) : Option Nat := r.timestamp.map (· / usPerDay)

/-- the bucket of records for day `d` produced by group_records_by_date
(src/bot/utils.py lines 126-137) followed by `.get(d, [])` in
_show_weekly_attendance: records without a timestamp are skipped, and
insertion order is preserved, so the bucket is an order-preserving filter. -/
def group_bucket (records : List AttendanceRecord) (d : Nat) : List AttendanceRecord :=
  records.filter (fun r => decide (record_date r = some d))

/-- the numeric part of the weekly summary accumulated by
_show_weekly_attendance (src/bot/commands.py lines 540-555). -/
structure WeekSummary where
  total_work_hours : ℚ
  work_days : Nat
  incomplete_days : Nat
deriving DecidableEq

/-- one iteration of the per-day loop of _show_weekly_attendance
(src/bot/commands.py lines 546-555): days with an empty bucket are
skipped entirely; a day with records counts one work day, adds its
calculated hours, and counts one incomplete day when flagged. -/
def aggStep (records : List AttendanceRecord) (acc : WeekSummary) (d : Nat) : WeekSummary :=
  let day_records := group_bucket records d
  if day_records.isEmpty then acc
  else
    let res := calculate_daily_work_hours day_records
    ⟨acc.total_work_hours + res.1,
     acc.work_days + 1,
     acc.incomplete_days + (if res.2 then 1 else 0)⟩

/-- the 7 calendar dates of the displayed week:
`[week_start.date() + timedelta(days=i) for i in range(7)]`. -/
def day_dates (week_start_day : Nat) : List Nat := (List.range 7).map (week_start_day + ·)

/-- the weekly aggregation of _show_weekly_attendance
(src/bot/commands.py lines 540-603), restricted to its numeric outputs. -/
def aggregate_week (records : List AttendanceRecord) (week_start_day : Nat) : WeekSummary :=
  (day_dates week_start_day).foldl (aggStep records) ⟨0, 0, 0⟩

/-- outcome of the weekly command: _show_weekly_attendance returns early
with an informational message when the week has no records
(src/bot/commands.py lines 512-519), and otherwise renders a summary. -/
inductive WeeklyOutcome
  | noRecordsMessage
  | summary (s : WeekSummary)
deriving DecidableEq

/-- the record-dependent control flow of _show_weekly_attendance:
`if not records: ... return` versus the aggregation path. -/
def show_weekly_attendance (records : List AttendanceRecord) (week_start_day : Nat) :
    WeeklyOutcome :=
  if records.isEmpty then WeeklyOutcome.noRecordsMessage
  else WeeklyOutcome.summary (aggregate_week records week_start_day)

/-- can_clock_in (src/bot/database.py lines 183-193), as a function of the
most recent record. -/
def can_clock_in (latest : Option AttendanceRecord) : Bool × String :=
  match latest with
  | none => (true, "No previous records found")
  | some r =>
    if r.record_type = RecordType.clock_out then (true, "Last record was clock-out")
    else (false, "Already clocked in. Please clock out first.")

/-- can_clock_out (src/bot/database.py lines 195-205), as a function of the
most recent record. -/
def can_clock_out (latest : Option AttendanceRecord) : Bool × String :=
  match latest with
  | none => (false, "No clock-in record found. Please clock in first.")
  | some r =>
    if r.record_type = RecordType.clock_in then (true, "Currently clocked in")
    else (false, "Not currently clocked in. Please clock in first.")

/-- reference scan of the Session Pairing Engine, following the claim text
(spec section 4.2): the open-clock-in slot starts empty; a ClockIn replaces
the open slot with its own timestamp; a ClockOut with an open slot adds the
elapsed hours and clears it; a ClockOut with no open slot is ignored.  The
branch for an absent timestamp is unreachable under the hypothesis that all
timestamps are present. -/
def spec_pair_step (acc : ℚ × Option Nat) (e : AttendanceRecord) : ℚ × Option Nat :=
  match e.record_type, e.timestamp with
  | RecordType.clock_in, some t => (acc.1, some t)
  | RecordType.clock_out, some t =>
    match acc.2 with
    | some ci => (acc.1 + ((t : ℚ) - (ci : ℚ)) / 1000000 / 3600, none)
    | none => acc
  | _, none => acc

/-- reference pairing of one day's already-ascending events, following the
claim text: after the scan, incomplete holds iff the slot is non-empty. -/
def spec_pairDay (events : List AttendanceRecord) : ℚ × Bool :=
  let res := events.foldl spec_pair_step ((0 : ℚ), (none : Option Nat))
  (res.1, res.2.isSome)

theorem insertR_perm (r : AttendanceRecord) (l : List AttendanceRecord) :
    List.Perm (insertR r l) (r :: l) := by
  induction l with
  | nil => simp [insertR]
  | cons y ys ih =>
    simp only [insertR]
    split
    · exact (ih.cons y).trans (List.Perm.swap r y ys)
    · exact List.Perm.refl _

theorem sortRecs_perm (l : List AttendanceRecord) : List.Perm (sortRecs l) l := by
  induction l with
  | nil => exact List.Perm.refl _
  | cons x xs ih => exact (insertR_perm x (sortRecs xs)).trans (ih.cons x)

theorem insertR_pairwise (r : AttendanceRecord) (l : List AttendanceRecord)
    (h : l.Pairwise (fun a b => sortKey a ≤ sortKey b)) :
    (insertR r l).Pairwise (fun a b => sortKey a ≤ sortKey b) := by
  induction l with
  | nil => simp [insertR]
  | cons y ys ih =>
    rw [List.pairwise_cons] at h
    simp only [insertR]
    split
    · rename_i hlt
      rw [List.pairwise_cons]
      constructor
      · intro z hz
        rcases List.mem_cons.mp ((insertR_perm r ys).mem_iff.mp hz) with hz | hz
        · exact hz ▸ Nat.le_of_lt hlt
        · exact h.1 z hz
      · exact ih h.2
    · rename_i hge
      have hry : sortKey r ≤ sortKey y := Nat.le_of_not_lt hge
      rw [List.pairwise_cons]
      refine ⟨?_, List.pairwise_cons.mpr h⟩
      intro z hz
      rcases List.mem_cons.mp hz with hz | hz
      · exact hz ▸ hry
      · exact le_trans hry (h.1 z hz)

theorem sortRecs_pairwise (l : List AttendanceRecord) :
    (sortRecs l).Pairwise (fun a b => sortKey a ≤ sortKey b) := by
  induction l with
  | nil => simp [sortRecs]
  | cons x xs ih => exact insertR_pairwise x (sortRecs xs) ih

theorem insertR_of_le (r : AttendanceRecord) (l : List AttendanceRecord)
    (h : ∀ y ∈ l, sortKey r ≤ sortKey y) : insertR r l = r :: l := by
  cases l with
  | nil => rfl
  | cons y ys =>
    simp only [insertR, Nat.not_lt.mpr (h y (List.mem_cons_self y ys)), if_neg]
    simp

theorem sortRecs_of_pairwise (l : List AttendanceRecord)
    (h : l.Pairwise (fun a b => sortKey a ≤ sortKey b)) : sortRecs l = l := by
  induction l with
  | nil => rfl
  | cons x xs ih =>
    rw [sortRecs, ih h.of_cons, insertR_of_le]
    exact fun y hy => List.rel_of_pairwise_cons h hy

theorem dailyStep_eq_spec (acc : ℚ × Option Nat) (r : AttendanceRecord)
    (h : r.timestamp.isSome = true) : dailyStep acc r = spec_pair_step acc r := by
  obtain ⟨t, ht⟩ := Option.isSome_iff_exists.mp h
  cases hrt : r.record_type with
  | clock_in => simp [dailyStep, spec_pair_step, hrt, ht]
  | clock_out =>
    cases hs : acc.2 with
    | none => simp [dailyStep, spec_pair_step, hrt, ht, hs]
    | some ci => simp [dailyStep, spec_pair_step, hrt, ht, hs, calculate_work_hours]

theorem foldl_daily_eq_spec (l : List AttendanceRecord)
    (hsome : ∀ r ∈ l, r.timestamp.isSome = true) :
    ∀ acc : ℚ × Option Nat, l.foldl dailyStep acc = l.foldl spec_pair_step acc := by
  induction l with
  | nil => intro acc; rfl
  | cons r rs ih =>
    intro acc
    rw [List.foldl_cons, List.foldl_cons,
      dailyStep_eq_spec acc r (hsome r (List.mem_cons_self r rs))]
    exact ih (fun x hx => hsome x (List.mem_cons_of_mem r hx)) _

theorem foldl_daily_nonneg (l : List AttendanceRecord) :
    ∀ (t : ℚ) (slot : Option Nat),
    l.Pairwise (fun a b => sortKey a ≤ sortKey b) →
    0 ≤ t →
    (∀ ci, slot = some ci → ∀ r ∈ l, ci ≤ sortKey r) →
    0 ≤ (l.foldl dailyStep (t, slot)).1 := by
  induction l with
  | nil =>
    intro t slot _ ht _
    simpa using ht
  | cons r rs ih =>
    intro t slot hp ht hslot
    rw [List.foldl_cons]
    cases hrt : r.record_type with
    | clock_in =>
      have hstep : dailyStep (t, slot) r = (t, r.timestamp) := by simp [dailyStep, hrt]
      rw [hstep]
      refine ih t r.timestamp hp.of_cons ht ?_
      intro ci hci x hx
      have hk : sortKey r = ci := by simp [sortKey, hci]
      exact hk ▸ List.rel_of_pairwise_cons hp hx
    | clock_out =>
      cases hs : slot with
      | none =>
        have hstep : dailyStep (t, none) r = (t, none) := by
          cases hts : r.timestamp <;> simp [dailyStep, hrt, hts]
        rw [hstep]
        exact ih t none hp.of_cons ht (by intro ci hci; cases hci)
      | some ci =>
        cases hts : r.timestamp with
        | none =>
          have hstep : dailyStep (t, some ci) r = (t, some ci) := by
            simp [dailyStep, hrt, hts]
          rw [hstep]
          refine ih t (some ci) hp.of_cons ht ?_
          intro ci' hci' x hx
          cases hci'
          exact hslot ci hs x (List.mem_cons_of_mem r hx)
        | some co =>
          have hstep : dailyStep (t, some ci) r
              = (t + calculate_work_hours (some ci) (some co), none) := by
            simp [dailyStep, hrt, hts]
          rw [hstep]
          refine ih _ none hp.of_cons ?_ (by intro ci' hci'; cases hci')
          have h1 : ci ≤ co := by
            have := hslot ci hs r (List.mem_cons_self r rs)
            simpa [sortKey, hts] using this
          have h2 : (0 : ℚ) ≤ calculate_work_hours (some ci) (some co) := by
            have hco : (ci : ℚ) ≤ (co : ℚ) := by exact_mod_cast h1
            simp only [calculate_work_hours]
            apply div_nonneg (div_nonneg (by linarith) (by norm_num)) (by norm_num)
          linarith

theorem calculate_daily_nil : calculate_daily_work_hours [] = ((0 : ℚ), false) := rfl

theorem group_bucket_nil (d : Nat) : group_bucket [] d = [] := rfl

theorem group_bucket_cons (r : AttendanceRecord) (rs : List AttendanceRecord) (d : Nat) :
    group_bucket (r :: rs) d
      = if record_date r = some d then r :: group_bucket rs d else group_bucket rs d := by
  simp only [group_bucket, List.filter_cons, decide_eq_true_eq]

theorem agg_foldl_eq (records : List AttendanceRecord) (ds : List Nat) :
    ∀ acc : WeekSummary,
    ds.foldl (aggStep records) acc =
      ⟨acc.total_work_hours
          + (ds.map (fun d => (calculate_daily_work_hours (group_bucket records d)).1)).sum,
       acc.work_days + ds.countP (fun d => !(group_bucket records d).isEmpty),
       acc.incomplete_days
          + ds.countP (fun d => (calculate_daily_work_hours (group_bucket records d)).2)⟩ := by
  induction ds with
  | nil =>
    intro acc
    cases acc
    simp
  | cons d ds ih =>
    intro acc
    rw [List.foldl_cons, ih (aggStep records acc d), List.map_cons, List.sum_cons,
      List.countP_cons, List.countP_cons]
    by_cases hemp : (group_bucket records d).isEmpty
    · have hnil : group_bucket records d = [] := List.isEmpty_iff.mp hemp
      have hstep : aggStep records acc d = acc := by simp [aggStep, hemp]
      rw [hstep, hnil, calculate_daily_nil]
      simp only [WeekSummary.mk.injEq]
      refine ⟨by ring, by simp, by simp⟩
    · have hne : (group_bucket records d).isEmpty = false := by
        cases h : (group_bucket records d).isEmpty
        · rfl
        · exact absurd h hemp
      have hstep : aggStep records acc d
          = ⟨acc.total_work_hours + (calculate_daily_work_hours (group_bucket records d)).1,
             acc.work_days + 1,
             acc.incomplete_days
               + (if (calculate_daily_work_hours (group_bucket records d)).2 then 1 else 0)⟩ := by
        simp [aggStep, hne]
      rw [hstep]
      simp only [WeekSummary.mk.injEq, hne]
      refine ⟨by ring, by simp; omega, ?_⟩
      cases hinc : (calculate_daily_work_hours (group_bucket records d)).2 <;> simp <;> omega

theorem aggregate_congr (r1 r2 : List AttendanceRecord) (ds : List Nat)
    (h : ∀ d ∈ ds, group_bucket r1 d = group_bucket r2 d) :
    ∀ acc, ds.foldl (aggStep r1) acc = ds.foldl (aggStep r2) acc := by
  induction ds with
  | nil => intro acc; rfl
  | cons d ds ih =>
    intro acc
    rw [List.foldl_cons, List.foldl_cons]
    have hd := h d (List.mem_cons_self d ds)
    have hstep : aggStep r1 acc d = aggStep r2 acc d := by simp only [aggStep, hd]
    rw [hstep]
    exact ih (fun x hx => h x (List.mem_cons_of_mem d hx)) _

/-- membership test mirroring the 7-day window `weekStart .. weekEnd`
of the aggregation, on calendar dates. -/
def in_week (ws : Nat) (r : AttendanceRecord) : Bool :=
  match record_date r with
  | some d => decide (ws ≤ d ∧ d < ws + 7)
  | none => false

theorem group_bucket_filter_in_week (records : List AttendanceRecord) (ws d : Nat)
    (h1 : ws ≤ d) (h2 : d < ws + 7) :
    group_bucket (records.filter (in_week ws)) d = group_bucket records d := by
  induction records with
  | nil => rfl
  | cons r rs ih =>
    by_cases hd : record_date r = some d
    · have hw : in_week ws r = true := by
        simp [in_week, hd]
        omega
      rw [List.filter_cons, if_pos hw, group_bucket_cons, group_bucket_cons,
        if_pos hd, if_pos hd, ih]
    · rw [group_bucket_cons, if_neg hd]
      by_cases hw : in_week ws r = true
      · rw [List.filter_cons, if_pos hw, group_bucket_cons, if_neg hd, ih]
      · rw [List.filter_cons, if_neg hw, ih]

theorem day_dates_nodup (ws : Nat) : (day_dates ws).Nodup := by
  refine List.Nodup.map ?_ (List.nodup_range 7)
  intro a b hab
  have h : ws + a = ws + b := hab
  omega

theorem mem_day_dates (ws d : Nat) : d ∈ day_dates ws ↔ ws ≤ d ∧ d < ws + 7 := by
  simp only [day_dates, List.mem_map, List.mem_range]
  constructor
  · rintro ⟨i, hi, rfl⟩
    omega
  · intro h
    exact ⟨d - ws, by omega, by omega⟩

theorem sum_map_add (l : List Nat) (f g : Nat → Nat) :
    (l.map (fun d => f d + g d)).sum = (l.map f).sum + (l.map g).sum := by
  induction l with
  | nil => rfl
  | cons a l ih =>
    simp only [List.map_cons, List.sum_cons, ih]
    omega

theorem sum_indicator_zero (ds : List Nat) (d0 : Nat) (h : d0 ∉ ds) :
    (ds.map (fun d => if d0 = d then 1 else 0)).sum = 0 := by
  induction ds with
  | nil => rfl
  | cons a ds ih =>
    have ha : ¬ d0 = a := fun hc => h (hc ▸ List.mem_cons_self a ds)
    simp only [List.map_cons, List.sum_cons, if_neg ha,
      ih (fun hc => h (List.mem_cons_of_mem a hc))]

theorem sum_indicator_one (ds : List Nat) (d0 : Nat) (hmem : d0 ∈ ds) (hnd : ds.Nodup) :
    (ds.map (fun d => if d0 = d then 1 else 0)).sum = 1 := by
  induction ds with
  | nil => cases hmem
  | cons a ds ih =>
    rcases List.mem_cons.mp hmem with rfl | hmem'
    · have hnotin : d0 ∉ ds := (List.nodup_cons.mp hnd).1
      simp [sum_indicator_zero ds d0 hnotin]
    · have ha : ¬ d0 = a := by
        rintro rfl
        exact (List.nodup_cons.mp hnd).1 hmem'
      simp only [List.map_cons, List.sum_cons, if_neg ha,
        ih hmem' (List.nodup_cons.mp hnd).2]

theorem buckets_length_sum (ds : List Nat) (hnd : ds.Nodup) :
    ∀ records : List AttendanceRecord,
    (∀ r ∈ records, ∃ d0 ∈ ds, record_date r = some d0) →
    (ds.map (fun d => (group_bucket records d).length)).sum = records.length := by
  intro records
  induction records with
  | nil =>
    intro _
    simp [group_bucket_nil]
  | cons r rs ih =>
    intro h
    obtain ⟨d0, hd0mem, hd0⟩ := h r (List.mem_cons_self r rs)
    have hlen : ∀ d, (group_bucket (r :: rs) d).length
        = (if d0 = d then 1 else 0) + (group_bucket rs d).length := by
      intro d
      rw [group_bucket_cons]
      by_cases hd : record_date r = some d
      · have heq : d0 = d := by
          rw [hd0] at hd
          exact Option.some.inj hd
        rw [if_pos hd, if_pos heq, List.length_cons]
        omega
      · have hne : ¬ d0 = d := fun hc => hd (hc ▸ hd0)
        rw [if_neg hd, if_neg hne]
        omega
    have hcongr : ds.map (fun d => (group_bucket (r :: rs) d).length)
        = ds.map (fun d => (if d0 = d then 1 else 0) + (group_bucket rs d).length) :=
      List.map_congr_left (fun d _ => hlen d)
    rw [hcongr, sum_map_add, sum_indicator_one ds d0 hd0mem hnd,
      ih (fun x hx => h x (List.mem_cons_of_mem r hx)), List.length_cons]
    omega

/-- C1 (counterexample): a week containing exactly one lone ClockIn event on
its first day yields `work_days = 1`, while the number of the 7 calendar days
whose workedHours is strictly positive is 0.  The code counts every day with
at least one record, not days with positive hours. -/
theorem c1_counterexample :
    (aggregate_week [⟨RecordType.clock_in, some 0, none⟩] 0).work_days = 1 ∧
    ((day_dates 0).countP
      (fun d => decide
        (0 < (calculate_daily_work_hours
          (group_bucket [⟨RecordType.clock_in, some 0, none⟩] d)).1))) = 0 ∧
    (1 : Nat) ≠ 0 := by
  refine ⟨?_, ?_, by decide⟩
  · simp [aggregate_week, day_dates, aggStep, group_bucket, record_date, usPerDay,
      calculate_daily_work_hours, sortRecs, insertR, sortKey, dailyStep,
      List.range, List.range.loop]
  · simp [day_dates, group_bucket, record_date, usPerDay,
      calculate_daily_work_hours, sortRecs, insertR, sortKey, dailyStep,
      List.range, List.range.loop, List.countP, List.countP.go]

/-- C1 (amended): for every week of events, the reported work-day count
equals the number of the 7 calendar days whose bucket contains at least one
record, regardless of whether those records contribute any hours. -/
theorem c1_amended_work_days (records : List AttendanceRecord) (ws : Nat) :
    (aggregate_week records ws).work_days
      = (day_dates ws).countP (fun d => !(group_bucket records d).isEmpty) := by
  rw [aggregate_week, agg_foldl_eq records (day_dates ws) ⟨0, 0, 0⟩]
  simp

/-- C2 (counterexample): an event dated 100 days after the week start is
silently excluded: the aggregation completes normally, returns exactly the
all-zero summary of an empty week, and raises no error — it does not fail
loudly on the out-of-range event. -/
theorem c2_counterexample :
    aggregate_week [⟨RecordType.clock_in, some (100 * usPerDay), none⟩] 0
      = aggregate_week [] 0 ∧
    show_weekly_attendance [⟨RecordType.clock_in, some (100 * usPerDay), none⟩] 0
      = WeeklyOutcome.summary ⟨0, 0, 0⟩ := by
  constructor
  · simp [aggregate_week, day_dates, aggStep, group_bucket, record_date, usPerDay,
      List.range, List.range.loop]
  · simp [show_weekly_attendance, aggregate_week, day_dates, aggStep, group_bucket,
      record_date, usPerDay, List.range, List.range.loop]

/-- C2 (amended): events whose timestamp falls outside the 7-day window are
silently excluded from the weekly aggregation — aggregating any record list
gives exactly the aggregation of its in-range records, with no error. -/
theorem c2_amended_silent_exclusion (records : List AttendanceRecord) (ws : Nat) :
    aggregate_week records ws = aggregate_week (records.filter (in_week ws)) ws := by
  unfold aggregate_week
  refine (aggregate_congr _ _ _ ?_ _).symm
  intro d hd
  rw [mem_day_dates] at hd
  exact group_bucket_filter_in_week records ws d hd.1 hd.2

/-- C3 (counterexample): with no records at all, the weekly command returns
the early informational no-records message, which is not the zero-total
summary the claim promises. -/
theorem c3_counterexample :
    show_weekly_attendance [] 0 = WeeklyOutcome.noRecordsMessage ∧
    WeeklyOutcome.noRecordsMessage ≠ WeeklyOutcome.summary ⟨0, 0, 0⟩ :=
  ⟨rfl, by intro h; cases h⟩

/-- C3 (amended): for a user and week with no events, the weekly summary
operation does not fail: it returns early with an informational
no-records message and produces no summary at all. -/
theorem c3_amended_no_records (ws : Nat) :
    show_weekly_attendance [] ws = WeeklyOutcome.noRecordsMessage := rfl

/-- C4 (counterexample): at the reference instant 0 (Monday 0001-01-01
00:00:00) with offset 0, the computed week end is Sunday 23:59:59 with
fractional-second part exactly 0, not the 999 milliseconds the claim
states. -/
theorem c4_counterexample :
    get_week_start_end 0 0 = some (0, 604799000000) ∧
    hour 604799000000 = 23 ∧ minute 604799000000 = 59 ∧ second 604799000000 = 59 ∧
    microsecond 604799000000 = 0 ∧ (0 : Nat) ≠ 999000 := by
  refine ⟨by decide, by decide, by decide, by decide, by decide, by decide⟩

/-- C4 (amended): whenever the week-bounds calculation succeeds, the start
is a Monday at exactly 00:00:00.000000, the end is the following Sunday at
exactly 23:59:59.000000 (zero fractional seconds, not .999), and the start
day is the reference day moved back to its Monday and shifted by
`weeksOffset` whole weeks (negative values select past weeks). -/
theorem c4_amended_week_bounds (t : Nat) (k : ℤ) (s e : Nat)
    (h : get_week_start_end t k = some (s, e)) :
    weekday s = 0 ∧ hour s = 0 ∧ minute s = 0 ∧ second s = 0 ∧ microsecond s = 0 ∧
    weekday e = 6 ∧ hour e = 23 ∧ minute e = 59 ∧ second e = 59 ∧ microsecond e = 0 ∧
    ((s / usPerDay : Nat) : ℤ) = ((t / usPerDay : Nat) : ℤ) - ((weekday t : Nat) : ℤ) + 7 * k := by
  simp only [get_week_start_end, usPerDay] at h
  split at h
  · rename_i hpos
    simp only [Option.some.injEq, Prod.mk.injEq] at h
    obtain ⟨hs, he⟩ := h
    subst hs
    subst he
    simp only [weekday, hour, minute, second, microsecond, usPerDay]
    omega
  · cases h

/-- C4 (witness): the amended week-bounds theorem applied at reference
instant 0 with offset 0. -/
theorem c4_amended_week_bounds_witness :
    get_week_start_end 0 0 = some (0, 604799000000) ∧
    (weekday 0 = 0 ∧ hour 0 = 0 ∧ minute 0 = 0 ∧ second 0 = 0 ∧ microsecond 0 = 0 ∧
     weekday 604799000000 = 6 ∧ hour 604799000000 = 23 ∧ minute 604799000000 = 59 ∧
     second 604799000000 = 59 ∧ microsecond 604799000000 = 0 ∧
     ((0 / usPerDay : Nat) : ℤ) = ((0 / usPerDay : Nat) : ℤ) - ((weekday 0 : Nat) : ℤ) + 7 * 0) :=
  ⟨by decide, c4_amended_week_bounds 0 0 0 604799000000 (by decide)⟩

/-- C5: on a timestamp-ascending day whose events all carry timestamps, the
session pairing engine coincides with the reference scan of the claim: the
open slot starts empty, a ClockIn replaces the open slot without error or
double counting, a ClockOut with an open slot adds the elapsed hours and
clears the slot, and incomplete holds iff the slot ends non-empty. -/
theorem c5_pairing_engine_matches_reference (events : List AttendanceRecord)
    (hsome : ∀ r ∈ events, r.timestamp.isSome = true)
    (hasc : events.Pairwise (fun a b => sortKey a ≤ sortKey b)) :
    calculate_daily_work_hours events = spec_pairDay events := by
  rw [calculate_daily_work_hours, spec_pairDay, sortRecs_of_pairwise events hasc,
    foldl_daily_eq_spec events hsome]

/-- C5 (witness): the pairing theorem applied to a concrete day with one
clock-in at 0h and one clock-out 8.5 hours later. -/
theorem c5_pairing_engine_matches_reference_witness :
    calculate_daily_work_hours
        [⟨RecordType.clock_in, some 0, none⟩, ⟨RecordType.clock_out, some 30600000000, none⟩]
      = spec_pairDay
        [⟨RecordType.clock_in, some 0, none⟩, ⟨RecordType.clock_out, some 30600000000, none⟩] :=
  c5_pairing_engine_matches_reference _ (by decide) (by decide)

/-- C6: for each of the three most-recent-event states (no record, most
recent is ClockIn, most recent is ClockOut), exactly one of canClockIn and
canClockOut holds — clock-out is allowed exactly when the most recent record
is a ClockIn, and clock-in is allowed in precisely the other states. -/
theorem c6_gate_exactly_one (latest : Option AttendanceRecord) :
    (can_clock_in latest).1 = !(can_clock_out latest).1 ∧
    (can_clock_out latest).1
      = decide (Option.map AttendanceRecord.record_type latest = some RecordType.clock_in) := by
  match latest with
  | none => exact ⟨rfl, rfl⟩
  | some r =>
    cases hrt : r.record_type <;> simp [can_clock_in, can_clock_out, hrt]

/-- C7: in a sorted day, a ClockOut that arrives while no clock-in is open
(the scan slot before it is empty) contributes nothing: the day result with
that event equals the result without it, so it adds zero hours, cannot
produce a negative accumulation, and cannot set the incomplete flag. -/
theorem c7_orphan_clock_out (pre post : List AttendanceRecord) (r : AttendanceRecord)
    (hr : r.record_type = RecordType.clock_out)
    (hsorted : (pre ++ r :: post).Pairwise (fun a b => sortKey a ≤ sortKey b))
    (hslot : (pre.foldl dailyStep ((0 : ℚ), (none : Option Nat))).2 = none) :
    calculate_daily_work_hours (pre ++ r :: post) = calculate_daily_work_hours (pre ++ post) := by
  have hsub : (pre ++ post).Sublist (pre ++ r :: post) :=
    List.Sublist.append_left (List.sublist_cons_self r post) pre
  have hsorted2 : (pre ++ post).Pairwise (fun a b => sortKey a ≤ sortKey b) :=
    hsorted.sublist hsub
  rw [calculate_daily_work_hours, calculate_daily_work_hours,
    sortRecs_of_pairwise _ hsorted, sortRecs_of_pairwise _ hsorted2]
  have hkey : (pre ++ r :: post).foldl dailyStep ((0 : ℚ), (none : Option Nat))
      = (pre ++ post).foldl dailyStep ((0 : ℚ), (none : Option Nat)) := by
    rcases hp : pre.foldl dailyStep ((0 : ℚ), (none : Option Nat)) with ⟨a, b⟩
    rw [hp] at hslot
    simp only at hslot
    subst hslot
    rw [List.foldl_append, List.foldl_append, List.foldl_cons, hp]
    have hstep : dailyStep (a, none) r = (a, none) := by
      cases hts : r.timestamp <;> simp [dailyStep, hr, hts]
    rw [hstep]
  rw [hkey]

/-- C7 (witness): the orphan clock-out theorem applied to a day consisting
of a single clock-out with no preceding clock-in. -/
theorem c7_orphan_clock_out_witness :
    calculate_daily_work_hours [⟨RecordType.clock_out, some 5, none⟩]
      = calculate_daily_work_hours [] :=
  c7_orphan_clock_out [] [] ⟨RecordType.clock_out, some 5, none⟩ rfl (by decide) rfl

/-- C8: for a week whose events all carry timestamps inside the 7-day
window, the aggregated totalHours equals the sum of the pairing-engine
hours over the 7 per-day buckets, and the bucket sizes sum to the number
of events, so no event is lost or counted twice at day boundaries. -/
theorem c8_total_hours_partition (records : List AttendanceRecord) (ws : Nat)
    (hin : ∀ r ∈ records,
      ∃ t0, r.timestamp = some t0 ∧ ws ≤ t0 / usPerDay ∧ t0 / usPerDay < ws + 7) :
    (aggregate_week records ws).total_work_hours
      = ((day_dates ws).map
          (fun d => (calculate_daily_work_hours (group_bucket records d)).1)).sum ∧
    ((day_dates ws).map (fun d => (group_bucket records d).length)).sum = records.length := by
  constructor
  · rw [aggregate_week, agg_foldl_eq records (day_dates ws) ⟨0, 0, 0⟩]
    simp
  · refine buckets_length_sum (day_dates ws) (day_dates_nodup ws) records ?_
    intro r hr
    obtain ⟨t0, ht, h1, h2⟩ := hin r hr
    exact ⟨t0 / usPerDay, (mem_day_dates ws _).mpr ⟨h1, h2⟩, by simp [record_date, ht]⟩

/-- C8 (witness): the partition theorem applied to a week containing a
single clock-in on its first day. -/
theorem c8_total_hours_partition_witness :
    (aggregate_week [⟨RecordType.clock_in, some 0, none⟩] 0).total_work_hours
      = ((day_dates 0).map
          (fun d => (calculate_daily_work_hours
            (group_bucket [⟨RecordType.clock_in, some 0, none⟩] d)).1)).sum ∧
    ((day_dates 0).map
        (fun d => (group_bucket [⟨RecordType.clock_in, some 0, none⟩] d).length)).sum
      = [(⟨RecordType.clock_in, some 0, none⟩ : AttendanceRecord)].length :=
  c8_total_hours_partition _ 0 (by
    intro r hr
    simp only [List.mem_singleton] at hr
    subst hr
    exact ⟨0, rfl, by simp, by simp⟩)

/-- C9: for every sequence of clock events, of any length and mix, the
workedHours computed by the pairing engine is nonnegative — no input can
drive the accumulated duration negative. -/
theorem c9_worked_hours_nonneg (records : List AttendanceRecord) :
    0 ≤ (calculate_daily_work_hours records).1 := by
  simp only [calculate_daily_work_hours]
  exact foldl_daily_nonneg (sortRecs records) 0 none (sortRecs_pairwise records) le_rfl
    (by intro ci hci; cases hci)

/-- C10: when all timestamps of a day are present and pairwise distinct,
the pairing engine returns the same result on every permutation of the
records, because it sorts by timestamp before scanning. -/
theorem c10_permutation_invariance (l1 l2 : List AttendanceRecord) (hperm : l1.Perm l2)
    (hsome : ∀ r ∈ l1, r.timestamp.isSome = true)
    (hdist : l1.Pairwise (fun a b => a.timestamp ≠ b.timestamp)) :
    calculate_daily_work_hours l1 = calculate_daily_work_hours l2 := by
  have hkey1 : l1.Pairwise (fun a b => sortKey a ≠ sortKey b) := by
    refine List.Pairwise.imp_of_mem ?_ hdist
    intro a b ha hb hne
    obtain ⟨ta, hta⟩ := Option.isSome_iff_exists.mp (hsome a ha)
    obtain ⟨tb, htb⟩ := Option.isSome_iff_exists.mp (hsome b hb)
    simp only [sortKey, hta, htb, Option.getD_some]
    intro hcontra
    exact hne (by rw [hta, htb, hcontra])
  have hsymm : ∀ {x y : AttendanceRecord}, sortKey x ≠ sortKey y → sortKey y ≠ sortKey x :=
    fun h => Ne.symm h
  have hkeys1 : (sortRecs l1).Pairwise (fun a b => sortKey a ≠ sortKey b) :=
    (List.Perm.pairwise_iff hsymm (sortRecs_perm l1)).mpr hkey1
  have hkey2 : l2.Pairwise (fun a b => sortKey a ≠ sortKey b) :=
    (List.Perm.pairwise_iff hsymm hperm).mp hkey1
  have hkeys2 : (sortRecs l2).Pairwise (fun a b => sortKey a ≠ sortKey b) :=
    (List.Perm.pairwise_iff hsymm (sortRecs_perm l2)).mpr hkey2
  have hlt1 : (sortRecs l1).Pairwise (fun a b => sortKey a < sortKey b) :=
    ((sortRecs_pairwise l1).and hkeys1).imp (fun h => lt_of_le_of_ne h.1 h.2)
  have hlt2 : (sortRecs l2).Pairwise (fun a b => sortKey a < sortKey b) :=
    ((sortRecs_pairwise l2).and hkeys2).imp (fun h => lt_of_le_of_ne h.1 h.2)
  have hperm12 : (sortRecs l1).Perm (sortRecs l2) :=
    ((sortRecs_perm l1).trans hperm).trans (sortRecs_perm l2).symm
  haveI : IsAntisymm AttendanceRecord (fun a b => sortKey a < sortKey b) :=
    ⟨fun a b h1 h2 => absurd (h1.trans h2) (lt_irrefl _)⟩
  have heq : sortRecs l1 = sortRecs l2 := List.eq_of_perm_of_sorted hperm12 hlt1 hlt2
  rw [calculate_daily_work_hours, calculate_daily_work_hours, heq]

/-- C10 (witness): the permutation theorem applied to a two-event day given
in reversed timestamp order. -/
theorem c10_permutation_invariance_witness :
    calculate_daily_work_hours
        [⟨RecordType.clock_out, some 7200000000, none⟩,
         ⟨RecordType.clock_in, some 3600000000, none⟩]
      = calculate_daily_work_hours
        [⟨RecordType.clock_in, some 3600000000, none⟩,
         ⟨RecordType.clock_out, some 7200000000, none⟩] :=
  c10_permutation_invariance _ _ (by decide) (by decide) (by decide)

end AttendanceBot
